import Mathlib

/-!
Verification of the structured content reconciliation engine of
`src/comparison_app.py`.

The Python source is shallowly embedded: text is modelled as Lean `String`
(a list of characters), the `difflib.Differ` line diff is modelled by the
recursive longest-matching-block algorithm that `difflib.SequenceMatcher`
performs on junk-free inputs, and every report-producing function is
translated clause by clause from the source.  All definitions are
executable (structural recursion, explicit fuel where the source recursion
is not structural), so concrete runs evaluate by `decide` / `rfl`.
-/

namespace WebCompare

/-- Python whitespace (the `\s` regex class and the `str.strip` character
set, restricted to ASCII). -/
def isPySpace (c : Char) : Bool :=
  c == ' ' || c == '\t' || c == '\n' || c == '\r' || c == '\x0b' || c == '\x0c'

/-- `str.strip()` on a character list: drop whitespace from both ends. -/
def pyStripL (l : List Char) : List Char :=
  ((l.dropWhile isPySpace).reverse.dropWhile isPySpace).reverse

/-- Python `str.strip()`. -/
def pyStrip (s : String) : String :=
  ⟨pyStripL s.data⟩

/-- `List.dropWhile isPySpace`, the greedy `\s*` of the source's regexes. -/
def dropWs (l : List Char) : List Char :=
  l.dropWhile isPySpace

/-- Bool test that the first list is an initial segment of the second. -/
def isLeading : List Char → List Char → Bool
  | [], _ => true
  | _ :: _, [] => false
  | c :: cs, d :: ds => if c = d then isLeading cs ds else false

/-- Python substring membership `needle in hay` on character lists. -/
def pyInL (needle hay : List Char) : Bool :=
  (List.range (hay.length + 1)).any (fun i => isLeading needle (hay.drop i))

/-- Python substring membership `needle in hay` for strings. -/
def pyInStr (needle hay : String) : Bool :=
  pyInL needle.data hay.data

/-- Scan for the closing `]` of a non-greedy `\[.*?\]` match: returns the
characters after the first `]`, failing on a newline (regex `.` does not
match `\n`) or at the end of input. -/
def scanClose : List Char → Option (List Char)
  | [] => none
  | c :: rest =>
    if c = ']' then some rest
    else if c = '\n' then none
    else scanClose rest

/-- One pass of `re.sub(r'\[.*?\]', '', ·)`: every `[` that has a later `]`
on the same line opens a bracketed token that is removed entirely (up to
the first such `]`); any other character is kept.  The fuel argument only
bounds the recursion; `fuel = l.length` always suffices because every step
consumes at least one character. -/
def removeBracketsF : Nat → List Char → List Char
  | 0, l => l
  | _ + 1, [] => []
  | fuel + 1, c :: rest =>
    if c = '[' then
      match scanClose rest with
      | some rest' => removeBracketsF fuel rest'
      | none => c :: removeBracketsF fuel rest
    else c :: removeBracketsF fuel rest

/-- `re.sub(r'\[.*?\]', '', s)` (line 177 of the source). -/
def removeLabelTokens (s : String) : String :=
  ⟨removeBracketsF s.data.length s.data⟩

/-- `re.sub(r'^\[.*?\]\s*', '', s)` (line 174 of the source): remove one
leading bracketed label and the whitespace after it, if present. -/
def stripLeadingLabel (s : String) : String :=
  match s.data with
  | '[' :: rest =>
    match scanClose rest with
    | some rest' => ⟨dropWs rest'⟩
    | none => s
  | _ => s

/-- Split the text into the lines of `str.splitlines()` (modelled for
newline-separated text). -/
def splitNl : List Char → List (List Char)
  | [] => [[]]
  | c :: rest =>
    if c = '\n' then [] :: splitNl rest
    else
      match splitNl rest with
      | [] => [[c]]
      | l :: ls => (c :: l) :: ls

/-- Label canonicalization of `get_docx_content_and_labels` (line 107):
`match.group(1).strip().upper().replace(" ", "_").replace("(", "").replace(")", "")`. -/
def canon_label (l : String) : String :=
  ⟨(((pyStripL l.data).map Char.toUpper).map
      (fun c => if c = ' ' then '_' else c)).filter
    (fun c => !(c == '(') && !(c == ')'))⟩

/-- Plain split at the first colon of a character list.  On newline-free
text this is exactly where `LABEL_PATTERN` splits (`lpScan_single_line`);
it is used to state that correspondence. -/
def splitFirstColon : List Char → Option (List Char × List Char)
  | [] => none
  | c :: rest =>
    if c = ':' then some ([], rest)
    else
      match splitFirstColon rest with
      | some (pre, post) => some (c :: pre, post)
      | none => none

/-- The `\s*(.*)$` tail of `LABEL_PATTERN`, applied to the text after the
matched colon: greedy whitespace (which may include newlines), then a
group-2 run in which `.` matches no newline, and `$` matching at the end
of the input or just before one final newline.  Returns group 2, or
`none` when the tail cannot match (an interior newline survives outside
the leading whitespace). -/
def lpTail (rest : List Char) : Option (List Char) :=
  let afterWs := rest.dropWhile isPySpace
  let content := afterWs.takeWhile (fun ch => !(ch == '\n'))
  match afterWs.dropWhile (fun ch => !(ch == '\n')) with
  | [] => some content
  | ['\n'] => some content
  | _ => none

/-- Head test for the `:` of the pattern. -/
def headColonTail (l : List Char) : Option (List Char) :=
  match l with
  | c :: t => if c = ':' then some t else none
  | [] => none

/-- `re.match(LABEL_PATTERN, ·)` with
`LABEL_PATTERN = re.compile(r"^(.*?)\s*:\s*(.*)$")` (line 93 of the
source), returning `(group 1, group 2)`.  The lazy `(.*?)` tries split
positions left to right and cannot cross a newline; at each position the
greedy `\s*` (which can cross newlines) must reach a `:`, and the rest
of the pattern must match the remainder; on failure the scan advances one
character.  Validated against CPython `re` on the newline cases. -/
def lpScan : List Char → List Char → Option (List Char × List Char)
  | _, [] => none
  | acc, ch :: restTl =>
    match headColonTail ((ch :: restTl).dropWhile isPySpace) with
    | some rest2 =>
      match lpTail rest2 with
      | some content => some (acc.reverse, content)
      | none => if ch = '\n' then none else lpScan (ch :: acc) restTl
    | none => if ch = '\n' then none else lpScan (ch :: acc) restTl

/-- The per-paragraph body of `get_docx_content_and_labels` (lines
99-115): strip the paragraph text, drop it when blank, otherwise match
`LABEL_PATTERN` against it — splitting into a canonicalized label
(group 1) and stripped content (group 2) — defaulting to `PARAGRAPH`
when the pattern does not match. -/
def docx_line (text : String) : Option String :=
  if pyStrip text = "" then none
  else
    match lpScan [] (pyStrip text).data with
    | some (pre, post) =>
      some ("[" ++ canon_label ⟨pre⟩ ++ "] " ++ pyStrip ⟨post⟩)
    | none => some ("[PARAGRAPH] " ++ pyStrip text)

/-- `get_docx_content_and_labels`, modelled on the ordered list of
paragraph texts of the reference document (reading the DOCX container is
an external collaborator). -/
def get_docx_content_and_labels (paragraphs : List String) : List String :=
  paragraphs.filterMap docx_line

/-! ### The `difflib` line diff

`difflib.Differ().compare(expected_lines, actual_lines)` tags every
expected line with `' '` (part of a matching block) or `'-'`, and every
actual line with `' '` or `'+'`, following `SequenceMatcher`'s recursive
longest-matching-block decomposition.  On junk-free inputs
`find_longest_match` returns, among the longest equal blocks, the one
that starts earliest in the first sequence and then earliest in the
second; a region with no equal block (`k = 0`) yields only `'-'` and
`'+'` tags (its `'?'` hint lines carry no line of either input and are
skipped by every branch of `compare_texts`, so they are not modelled).

Within such a region the model emits the `'-'` lines before the `'+'`
lines, whereas `Differ` may interleave the two by an intraline-similarity
heuristic; both streams have the same subsequence of expected-side lines
(tags `' '`/`'-'`) and the same subsequence of actual-side lines (tags
`' '`/`'+'`), and those two projections are the only data any branch of
`compare_texts` consumes. -/

/-- Length of the longest common prefix of two line sequences. -/
def prefixLen : List String → List String → Nat
  | x :: xs, y :: ys => if x = y then prefixLen xs ys + 1 else 0
  | _, _ => 0

/-- Length of the equal run that starts at offsets `i`, `j`. -/
def candK (a b : List String) (i j : Nat) : Nat :=
  prefixLen (a.drop i) (b.drop j)

/-- All index pairs `(i, j)` with `i < n`, `j < m`, in lexicographic
order (the search order of `find_longest_match`). -/
def rangePairs (n m : Nat) : List (Nat × Nat) :=
  (List.range (n * m)).map (fun t => (t / m, t % m))

/-- `SequenceMatcher.find_longest_match` on the whole sequences: the
longest equal block `(i, j, k)`, preferring the earliest `i` and then the
earliest `j`; `k = 0` when the sequences share no line. -/
def findLM (a b : List String) : Nat × Nat × Nat :=
  (rangePairs a.length b.length).foldl
    (fun best p =>
      if best.2.2 < candK a b p.1 p.2 then (p.1, p.2, candK a b p.1 p.2)
      else best)
    (0, 0, 0)

/-- The tagged line stream of `difflib.Differ().compare`: recursive
decomposition around the longest matching block.  Every recursive call
strictly decreases `a.length + b.length` by at least two, so
`fuel = a.length + b.length` always reaches the `k = 0` base case before
the fuel runs out (at fuel `0` both sequences are necessarily empty and
the two emissions agree). -/
def diffTagsF : Nat → List String → List String → List (Char × String)
  | 0, a, b =>
    a.map (fun s => (('-' : Char), s)) ++ b.map (fun s => (('+' : Char), s))
  | fuel + 1, a, b =>
    if (findLM a b).2.2 = 0 then
      a.map (fun s => (('-' : Char), s)) ++ b.map (fun s => (('+' : Char), s))
    else
      diffTagsF fuel (a.take (findLM a b).1) (b.take (findLM a b).2.1)
        ++ ((a.drop (findLM a b).1).take (findLM a b).2.2).map
            (fun s => ((' ' : Char), s))
        ++ diffTagsF fuel (a.drop ((findLM a b).1 + (findLM a b).2.2))
            (b.drop ((findLM a b).2.1 + (findLM a b).2.2))

/-- `list(difflib.Differ().compare(a, b))`, restricted to the `' '`,
`'-'`, `'+'` lines consumed by `compare_texts`. -/
def diffTags (a b : List String) : List (Char × String) :=
  diffTagsF (a.length + b.length) a b

/-! ### `compare_texts` (lines 131-213 of the source) -/

/-- One row of `comparison_results`. -/
structure CompResult where
  status : String
  expected : String
  detail : String
deriving DecidableEq

/-- Line 137: `[line.strip() for line in actual_text.splitlines() if line.strip()]`. -/
def actualLines (actual_text : String) : List String :=
  ((splitNl actual_text.data).map (fun l => pyStrip ⟨l⟩)).filter
    (fun s => !(s == ""))

/-- Detail string of a `' '` (matching) row (line 165). -/
def matchMsg : String :=
  "Content and structural tag are identical on the website."

/-- Detail string of the structural-error diagnosis (line 181). -/
def structuralMsg : String :=
  "STRUCTURAL ERROR: Content found on page, but under a DIFFERENT label/structure (e.g., expected [TITLE_H1], found [PARAGRAPH])."

/-- Detail string of the content-error diagnosis (line 183). -/
def contentMsg : String :=
  "CONTENT ERROR: Text is Missing, has Typos, or major Mismatches on the website."

/-- Lines 173-183: the two-step secondary search that classifies a `'-'`
line.  `content_only` is the row content with one leading bracketed label
removed; the search target is the full actual text with every bracketed
token removed; both are stripped, and the membership test is Python's
exact substring operator `in`. -/
def deleteDetail (content actual_text : String) : String :=
  if pyStrip (stripLeadingLabel content) ≠ ""
      ∧ pyInStr (pyStrip (stripLeadingLabel content))
          (pyStrip (removeLabelTokens actual_text)) = true
  then structuralMsg
  else contentMsg

/-- The body of the `for line in diff` loop (lines 152-193) applied to one
tagged line: blank contents are skipped, `' '` lines become matching rows,
`'-'` lines become mismatch rows, every other tag (including `'+'` and the
`'?'` hints) produces nothing. -/
def classifyDiffLine (actual_text : String) (p : Char × String) :
    Option CompResult :=
  let content := pyStrip p.2
  if content = "" then none
  else if p.1 = ' ' then some ⟨"✅ MATCHING", content, matchMsg⟩
  else if p.1 = '-' then
    some ⟨"❌ MISMATCH", content, deleteDetail content actual_text⟩
  else none

/-- The `comparison_results` array built by the loop. -/
def comparisonResults (expected_lines : List String) (actual_text : String) :
    List CompResult :=
  (diffTags expected_lines (actualLines actual_text)).filterMap
    (classifyDiffLine actual_text)

/-- The `has_mismatches` flag: set exactly when a `'-'` line with
non-blank content is processed (lines 169-171). -/
def has_mismatches (expected_lines : List String) (actual_text : String) :
    Bool :=
  (diffTags expected_lines (actualLines actual_text)).any
    (fun p => p.1 == '-' && !(pyStrip p.2 == ""))

/-- Line 198: `item['expected'][:100].replace('\n', ' ')` plus the
ellipsis for truncated contents. -/
def expectedDisplay (s : String) : String :=
  (⟨(s.data.take 100).map (fun c => if c = '\n' then ' ' else c)⟩ : String)
    ++ (if 100 < s.data.length then "..." else "")

/-- Line 199: one markdown table row of the final report. -/
def resultRow (r : CompResult) : String :=
  "| " ++ r.status ++ " | `" ++ expectedDisplay r.expected ++ "` | "
    ++ r.detail ++ " |"

/-- Table header rows (lines 146-147). -/
def tableHeader1 : String :=
  "| Status | Expected Content (from DOCX) | Mismatch Detail |"

/-- Second table header row. -/
def tableHeader2 : String := "| :--- | :--- | :--- |"

/-- `"\n".join(output_lines)`. -/
def joinNl : List String → String
  | [] => ""
  | [x] => x
  | x :: y :: rest => x ++ "\n" ++ joinNl (y :: rest)

/-- First line of the all-clear banner (line 203). -/
def passHeader : String := "## ✅ Perfect Structural Match Found"

/-- First line of the mismatch banner (line 206). -/
def failHeader : String := "## ⚠️ Structural Mismatches Detected"

/-- The all-clear banner (lines 203-204). -/
def passBanner : String :=
  passHeader
    ++ "\nAll labeled content in the DOCX was found with the correct structural tag and exact content on the live page."

/-- The mismatch banner (lines 206-207). -/
def failBanner : String :=
  failHeader
    ++ "\nThe following is the complete report, including all matches and mismatches."

/-- The fixed closing block of every report (lines 210-211): the heading
plus the extra-content disclosure note.  It is a constant string: the
source appends the same text regardless of the inputs. -/
def extraFlagBlock : String :=
  "\n\n---\n\n## Extra Website Content Flag\n"
    ++ "All website content not explicitly listed in the DOCX is considered \x27Extra Website Content\x27 (e.g., current date, unique ads) and is not listed in the detailed table above."

/-- `compare_texts` (lines 131-213): banner, table, closing block. -/
def compare_texts (expected_lines : List String) (actual_text : String) :
    String :=
  ((if has_mismatches expected_lines actual_text then failBanner
    else passBanner)
      ++ ("\n\n"
        ++ joinNl (tableHeader1 :: tableHeader2
            :: (comparisonResults expected_lines actual_text).map resultRow)))
    ++ extraFlagBlock

/-- Bool test that a report opens with the all-clear banner line. -/
def bannerIsPass (report : String) : Bool :=
  isLeading passHeader.data report.data

/-! ### `run_structural_validation` (lines 217-246)

The three acquisition collaborators (page fetch, Gemini labeling, DOCX
reading) are external to the engine; the orchestration is modelled over
their outcomes: each is either `Except.error msg` (the collaborator
returned an error string) or `Except.ok value`.  The first component of
the result is the downloadable artifact (the labeled web content that
`create_labeled_docx_output` would save), the second is the message shown
to the user (an error, or the validation report). -/

/-- `run_structural_validation`: short-circuit on the missing file and on
each collaborator error, in source order; on success, compare and return
the artifact plus the report. -/
def run_structural_validation (comparison_file : Option String)
    (fetched : Except String String)
    (labeler : String → Except String String)
    (docxReader : String → Except String (List String)) :
    Option String × String :=
  match comparison_file with
  | none => (none, "ERROR: Please upload a DOCX file for comparison.")
  | some filename =>
    match fetched with
    | Except.error e => (none, e)
    | Except.ok raw_text =>
      match labeler raw_text with
      | Except.error e => (none, e)
      | Except.ok labeled_web_content =>
        match docxReader filename with
        | Except.error e => (none, e)
        | Except.ok docx_labeled_lines =>
          (some labeled_web_content,
            compare_texts docx_labeled_lines labeled_web_content)

/-! ### The spec's NormalizedKey (not present in the source) -/

/-- Characters the spec's normalization keeps after lowercasing:
ASCII letters (already lowercased), ASCII digits, whitespace. -/
def specKeep (c : Char) : Bool :=
  (decide ('a' ≤ c) && decide (c ≤ 'z'))
    || (decide ('0' ≤ c) && decide (c ≤ '9'))
    || isPySpace c

/-- Collapse runs of adjacent spaces to a single space. -/
def dedupSpace : List Char → List Char
  | [] => []
  | [c] => [c]
  | c :: d :: rest =>
    if c = ' ' ∧ d = ' ' then dedupSpace (d :: rest)
    else c :: dedupSpace (d :: rest)

/-- Modelled from the spec: the `NormalizedKey` projection (spec section 3
and section 4.1) — lowercase, remove every character outside `[a-z0-9]`
and whitespace, collapse whitespace runs to single spaces, trim.  The
source contains no such normalization function; this definition follows
the spec's words and is used only to state claim C1 against the source's
actual (exact) search. -/
def NormalizedKey (s : String) : String :=
  ⟨pyStripL (dedupSpace
    (((s.data.map Char.toLower).filter specKeep).map
      (fun c => if isPySpace c then ' ' else c)))⟩

/-! ### Structural lemmas about the diff -/

/-- Projection keeping the expected-side lines of the tagged stream:
the lines of `MATCH` (`' '`) and `DELETE` (`'-'`) operations. -/
def keepA (p : Char × String) : Option String :=
  if p.1 = ' ' then some p.2 else if p.1 = '-' then some p.2 else none

/-- Projection keeping the actual-side lines of the tagged stream:
the lines of `MATCH` (`' '`) and `INSERT` (`'+'`) operations. -/
def keepB (p : Char × String) : Option String :=
  if p.1 = ' ' then some p.2 else if p.1 = '+' then some p.2 else none

theorem filterMap_map_some {α β : Type} (f : α → β) (g : β → Option α)
    (h : ∀ x, g (f x) = some x) :
    ∀ l : List α, (l.map f).filterMap g = l := by
  intro l
  induction l with
  | nil => rfl
  | cons x xs ih =>
    rw [List.map_cons, List.filterMap_cons, h x]
    show x :: (xs.map f).filterMap g = x :: xs
    rw [ih]

theorem filterMap_map_none {α β γ : Type} (f : α → β) (g : β → Option γ)
    (h : ∀ x, g (f x) = none) :
    ∀ l : List α, (l.map f).filterMap g = [] := by
  intro l
  induction l with
  | nil => rfl
  | cons x xs ih =>
    rw [List.map_cons, List.filterMap_cons, h x]
    exact ih

theorem prefixLen_le_left :
    ∀ xs ys : List String, prefixLen xs ys ≤ xs.length := by
  intro xs
  induction xs with
  | nil => intro ys; cases ys <;> simp [prefixLen]
  | cons x xs ih =>
    intro ys
    cases ys with
    | nil => simp [prefixLen]
    | cons y ys =>
      by_cases hxy : x = y
      · simpa [prefixLen, hxy] using ih ys
      · simp [prefixLen, hxy]

theorem prefixLen_le_right :
    ∀ xs ys : List String, prefixLen xs ys ≤ ys.length := by
  intro xs
  induction xs with
  | nil => intro ys; cases ys <;> simp [prefixLen]
  | cons x xs ih =>
    intro ys
    cases ys with
    | nil => simp [prefixLen]
    | cons y ys =>
      by_cases hxy : x = y
      · simpa [prefixLen, hxy] using ih ys
      · simp [prefixLen, hxy]

theorem prefixLen_take_eq :
    ∀ xs ys : List String,
      xs.take (prefixLen xs ys) = ys.take (prefixLen xs ys) := by
  intro xs
  induction xs with
  | nil => intro ys; cases ys <;> simp [prefixLen]
  | cons x xs ih =>
    intro ys
    cases ys with
    | nil => simp [prefixLen]
    | cons y ys =>
      by_cases hxy : x = y
      · simp [prefixLen, hxy, List.take_succ_cons, ih ys]
      · simp [prefixLen, hxy]

theorem rangePairs_mem {n m : Nat} {p : Nat × Nat}
    (h : p ∈ rangePairs n m) : p.1 < n ∧ p.2 < m := by
  obtain ⟨t, ht, rfl⟩ := List.mem_map.mp h
  have htl := List.mem_range.mp ht
  have hm : 0 < m := by
    rcases Nat.eq_zero_or_pos m with h0 | h0
    · subst h0; simp at htl
    · exact h0
  refine ⟨?_, Nat.mod_lt _ hm⟩
  exact Nat.div_lt_of_lt_mul (by rw [Nat.mul_comm]; exact htl)

theorem findLM_spec (a b : List String) :
    (findLM a b).2.2 = 0 ∨
      ((findLM a b).1 < a.length ∧ (findLM a b).2.1 < b.length ∧
        candK a b (findLM a b).1 (findLM a b).2.1 = (findLM a b).2.2) := by
  unfold findLM
  refine @List.foldlRecOn _ _
    (fun t => t.2.2 = 0 ∨
      (t.1 < a.length ∧ t.2.1 < b.length ∧ candK a b t.1 t.2.1 = t.2.2))
    (rangePairs a.length b.length) _ (0, 0, 0) (Or.inl rfl) ?_
  intro t ht p hp
  obtain ⟨hi, hj⟩ := rangePairs_mem hp
  split
  · exact Or.inr ⟨hi, hj, rfl⟩
  · exact ht

theorem findLM_bounds (a b : List String)
    (h : (findLM a b).2.2 ≠ 0) :
    (findLM a b).1 < a.length ∧ (findLM a b).2.1 < b.length ∧
    (findLM a b).1 + (findLM a b).2.2 ≤ a.length ∧
    (findLM a b).2.1 + (findLM a b).2.2 ≤ b.length ∧
    (a.drop (findLM a b).1).take (findLM a b).2.2
      = (b.drop (findLM a b).2.1).take (findLM a b).2.2 := by
  rcases findLM_spec a b with h0 | ⟨hi, hj, hc⟩
  · exact absurd h0 h
  · have h1 : (findLM a b).2.2 ≤ a.length - (findLM a b).1 := by
      have := prefixLen_le_left (a.drop (findLM a b).1) (b.drop (findLM a b).2.1)
      rw [candK] at hc
      simpa [hc, List.length_drop] using this
    have h2 : (findLM a b).2.2 ≤ b.length - (findLM a b).2.1 := by
      have := prefixLen_le_right (a.drop (findLM a b).1) (b.drop (findLM a b).2.1)
      rw [candK] at hc
      simpa [hc, List.length_drop] using this
    refine ⟨hi, hj, by omega, by omega, ?_⟩
    have := prefixLen_take_eq (a.drop (findLM a b).1) (b.drop (findLM a b).2.1)
    rw [candK] at hc
    rw [hc] at this
    exact this

theorem keepA_del (s : String) : keepA ('-', s) = some s := rfl

theorem keepA_ins (s : String) : keepA ('+', s) = none := rfl

theorem keepA_eq (s : String) : keepA (' ', s) = some s := rfl

theorem keepB_del (s : String) : keepB ('-', s) = none := rfl

theorem keepB_ins (s : String) : keepB ('+', s) = some s := rfl

theorem keepB_eq (s : String) : keepB (' ', s) = some s := rfl

theorem baseEmit_keepA (a b : List String) :
    ((a.map (fun s => (('-' : Char), s))
        ++ b.map (fun s => (('+' : Char), s))).filterMap keepA) = a := by
  rw [List.filterMap_append, filterMap_map_some _ _ keepA_del,
    filterMap_map_none _ _ keepA_ins, List.append_nil]

theorem baseEmit_keepB (a b : List String) :
    ((a.map (fun s => (('-' : Char), s))
        ++ b.map (fun s => (('+' : Char), s))).filterMap keepB) = b := by
  rw [List.filterMap_append, filterMap_map_some _ _ keepB_ins,
    filterMap_map_none _ _ keepB_del, List.nil_append]

/-- Alignment completeness, expected side: the lines of the `' '` and
`'-'` tags of the diff stream are exactly the expected sequence, in
order, once each. -/
theorem diffTagsF_keepA :
    ∀ fuel a b, (diffTagsF fuel a b).filterMap keepA = a := by
  intro fuel
  induction fuel with
  | zero => intro a b; exact baseEmit_keepA a b
  | succ n ih =>
    intro a b
    rw [diffTagsF]
    by_cases h : (findLM a b).2.2 = 0
    · rw [if_pos h]; exact baseEmit_keepA a b
    · rw [if_neg h]
      obtain ⟨hi, hj, hik, hjk, heq⟩ := findLM_bounds a b h
      rw [List.filterMap_append, List.filterMap_append, ih, ih,
        filterMap_map_some _ _ keepA_eq]
      conv_rhs => rw [← List.take_append_drop (findLM a b).1 a]
      rw [List.append_assoc]
      congr 1
      conv_rhs =>
        rw [← List.take_append_drop (findLM a b).2.2 (a.drop (findLM a b).1)]
      congr 1
      rw [List.drop_drop]

/-- Alignment completeness, actual side: the lines of the `' '` and `'+'`
tags of the diff stream are exactly the actual sequence, in order, once
each. -/
theorem diffTagsF_keepB :
    ∀ fuel a b, (diffTagsF fuel a b).filterMap keepB = b := by
  intro fuel
  induction fuel with
  | zero => intro a b; exact baseEmit_keepB a b
  | succ n ih =>
    intro a b
    rw [diffTagsF]
    by_cases h : (findLM a b).2.2 = 0
    · rw [if_pos h]; exact baseEmit_keepB a b
    · rw [if_neg h]
      obtain ⟨hi, hj, hik, hjk, heq⟩ := findLM_bounds a b h
      rw [List.filterMap_append, List.filterMap_append, ih, ih,
        filterMap_map_some _ _ keepB_eq, heq]
      conv_rhs => rw [← List.take_append_drop (findLM a b).2.1 b]
      rw [List.append_assoc]
      congr 1
      conv_rhs =>
        rw [← List.take_append_drop (findLM a b).2.2 (b.drop (findLM a b).2.1)]
      congr 1
      rw [List.drop_drop]

/-- Every `' '`-tagged line of the diff stream is a line of both input
sequences: a `MATCH` pairs an expected line with a character-identical
actual line. -/
theorem diffTagsF_space_mem :
    ∀ fuel a b s, ((' ' : Char), s) ∈ diffTagsF fuel a b →
      s ∈ a ∧ s ∈ b := by
  intro fuel
  induction fuel with
  | zero =>
    intro a b s h
    rw [diffTagsF] at h
    rcases List.mem_append.mp h with h1 | h1 <;>
      · obtain ⟨x, _, hx⟩ := List.mem_map.mp h1
        simp at hx
  | succ n ih =>
    intro a b s h
    rw [diffTagsF] at h
    by_cases h0 : (findLM a b).2.2 = 0
    · rw [if_pos h0] at h
      rcases List.mem_append.mp h with h1 | h1 <;>
        · obtain ⟨x, _, hx⟩ := List.mem_map.mp h1
          simp at hx
    · rw [if_neg h0] at h
      obtain ⟨hi, hj, hik, hjk, heq⟩ := findLM_bounds a b h0
      rcases List.mem_append.mp h with h1 | h1
      · rcases List.mem_append.mp h1 with h2 | h2
        · obtain ⟨ha, hb⟩ := ih _ _ _ h2
          exact ⟨List.take_subset _ _ ha, List.take_subset _ _ hb⟩
        · obtain ⟨x, hx, hxe⟩ := List.mem_map.mp h2
          have hxs : x = s := by simpa using hxe
          subst hxs
          constructor
          · exact List.drop_subset _ _ (List.take_subset _ _ hx)
          · rw [heq] at hx
            exact List.drop_subset _ _ (List.take_subset _ _ hx)
      · obtain ⟨ha, hb⟩ := ih _ _ _ h1
        exact ⟨List.drop_subset _ _ ha, List.drop_subset _ _ hb⟩

/-- With an empty expected sequence the diff is all insertions. -/
theorem diffTagsF_nil_left :
    ∀ fuel b, diffTagsF fuel [] b
      = b.map (fun s => (('+' : Char), s)) := by
  intro fuel b
  cases fuel with
  | zero => rw [diffTagsF]; rfl
  | succ n =>
    rw [diffTagsF]
    have h : (findLM [] b).2.2 = 0 := by
      unfold findLM rangePairs
      simp
    rw [if_pos h]
    rfl

theorem diffTags_keepA (a b : List String) :
    (diffTags a b).filterMap keepA = a :=
  diffTagsF_keepA _ a b

theorem diffTags_keepB (a b : List String) :
    (diffTags a b).filterMap keepB = b :=
  diffTagsF_keepB _ a b

theorem diffTags_space_mem (a b : List String) (s : String)
    (h : ((' ' : Char), s) ∈ diffTags a b) : s ∈ a ∧ s ∈ b :=
  diffTagsF_space_mem _ a b s h

/-! ### Lemmas about the classification loop -/

/-- Case analysis on one produced row: it comes from a `' '` line or a
`'-'` line with non-blank content, and its fields are determined by that
line. -/
theorem classify_mem_cases (ax : String) (p : Char × String)
    (r : CompResult) (h : classifyDiffLine ax p = some r) :
    (p.1 = ' ' ∧ pyStrip p.2 ≠ ""
        ∧ r = ⟨"✅ MATCHING", pyStrip p.2, matchMsg⟩) ∨
    (p.1 = '-' ∧ pyStrip p.2 ≠ ""
        ∧ r = ⟨"❌ MISMATCH", pyStrip p.2,
            deleteDetail (pyStrip p.2) ax⟩) := by
  unfold classifyDiffLine at h
  by_cases h0 : pyStrip p.2 = ""
  · simp [h0] at h
  · by_cases h1 : p.1 = ' '
    · simp only [h0, h1, if_neg, if_pos, ite_false, ite_true] at h
      left
      refine ⟨h1, h0, ?_⟩
      simp [h0] at h
      exact h.symm
    · by_cases h2 : p.1 = '-'
      · right
        refine ⟨h2, h0, ?_⟩
        simp [h0, h1, h2] at h
        exact h.symm
      · simp [h0, h1, h2] at h

theorem classify_space (ax s : String) (h : pyStrip s ≠ "") :
    classifyDiffLine ax ((' ' : Char), s)
      = some ⟨"✅ MATCHING", pyStrip s, matchMsg⟩ := by
  unfold classifyDiffLine
  simp [h]

theorem classify_del (ax s : String) (h : pyStrip s ≠ "") :
    classifyDiffLine ax (('-' : Char), s)
      = some ⟨"❌ MISMATCH", pyStrip s, deleteDetail (pyStrip s) ax⟩ := by
  unfold classifyDiffLine
  simp [h]

theorem classify_ins (ax s : String) :
    classifyDiffLine ax (('+' : Char), s) = none := by
  unfold classifyDiffLine
  by_cases h : pyStrip s = "" <;> simp [h]

/-- When every kept expected-side line is non-blank, the loop produces
exactly one row per kept line. -/
theorem filterMap_classify_len (ax : String) :
    ∀ l : List (Char × String),
      (∀ p ∈ l, keepA p ≠ none → pyStrip p.2 ≠ "") →
      (l.filterMap (classifyDiffLine ax)).length
        = (l.filterMap keepA).length := by
  intro l
  induction l with
  | nil => intro _; rfl
  | cons p ps ih =>
    intro h
    have hps : ∀ q ∈ ps, keepA q ≠ none → pyStrip q.2 ≠ "" :=
      fun q hq => h q (List.mem_cons_of_mem _ hq)
    by_cases hs : pyStrip p.2 = ""
    · have hk : keepA p = none := by
        by_contra hk
        exact h p (List.mem_cons_self _ _) hk hs
      have hc : classifyDiffLine ax p = none := by
        unfold classifyDiffLine
        simp [hs]
      simp only [List.filterMap_cons, hk, hc]
      exact ih hps
    · by_cases h1 : p.1 = ' '
      · have hk : keepA p = some p.2 := by simp [keepA, h1]
        have hc : classifyDiffLine ax p
            = some ⟨"✅ MATCHING", pyStrip p.2, matchMsg⟩ := by
          unfold classifyDiffLine
          simp [hs, h1]
        simp only [List.filterMap_cons, hk, hc, List.length_cons]
        exact congrArg Nat.succ (ih hps)
      · by_cases h2 : p.1 = '-'
        · have hk : keepA p = some p.2 := by simp [keepA, h1, h2]
          have hc : classifyDiffLine ax p
              = some ⟨"❌ MISMATCH", pyStrip p.2,
                  deleteDetail (pyStrip p.2) ax⟩ := by
            unfold classifyDiffLine
            simp [hs, h1, h2]
          simp only [List.filterMap_cons, hk, hc, List.length_cons]
          exact congrArg Nat.succ (ih hps)
        · have hk : keepA p = none := by simp [keepA, h1, h2]
          have hc : classifyDiffLine ax p = none := by
            unfold classifyDiffLine
            simp [hs, h1, h2]
          simp only [List.filterMap_cons, hk, hc]
          exact ih hps

/-- Every produced row has one of the two statuses of the source. -/
theorem result_status_cases (e : List String) (a : String) (r : CompResult)
    (hr : r ∈ comparisonResults e a) :
    r.status = "✅ MATCHING" ∨ r.status = "❌ MISMATCH" := by
  obtain ⟨p, _, hc⟩ := List.mem_filterMap.mp hr
  rcases classify_mem_cases a p r hc with ⟨_, _, hre⟩ | ⟨_, _, hre⟩
  · left; rw [hre]
  · right; rw [hre]

/-- The `has_mismatches` flag is set exactly when some produced row is a
mismatch row. -/
theorem mismatch_flag_iff (ax : String) (l : List (Char × String)) :
    (l.any (fun p => p.1 == '-' && !(pyStrip p.2 == "")) = true) ↔
      ∃ r ∈ l.filterMap (classifyDiffLine ax),
        r.status = "❌ MISMATCH" := by
  constructor
  · intro h
    obtain ⟨p, hp, hpp⟩ := List.any_eq_true.mp h
    rw [Bool.and_eq_true] at hpp
    have h1 : p.1 = '-' := beq_iff_eq.mp hpp.1
    have h2 : pyStrip p.2 ≠ "" := by
      intro hc
      rw [hc] at hpp
      simp at hpp
    refine ⟨⟨"❌ MISMATCH", pyStrip p.2, deleteDetail (pyStrip p.2) ax⟩,
      List.mem_filterMap.mpr ⟨p, hp, ?_⟩, rfl⟩
    have hp2 : p = (('-' : Char), p.2) := by
      cases p
      simp_all
    rw [hp2]
    exact classify_del ax p.2 h2
  · rintro ⟨r, hr, hst⟩
    obtain ⟨p, hp, hc⟩ := List.mem_filterMap.mp hr
    rcases classify_mem_cases ax p r hc with ⟨h1, hs, hre⟩ | ⟨h1, hs, hre⟩
    · rw [hre] at hst
      simp at hst
    · refine List.any_eq_true.mpr ⟨p, hp, ?_⟩
      rw [Bool.and_eq_true]
      constructor
      · exact beq_iff_eq.mpr h1
      · simp [hs]

/-! ### Lemmas about the report string -/

theorem isLeading_self_append :
    ∀ p r : List Char, isLeading p (p ++ r) = true := by
  intro p r
  induction p with
  | nil => rfl
  | cons c cs ih => simp [isLeading, ih]

theorem isLeading_append_long :
    ∀ (p u v : List Char), p.length ≤ u.length →
      isLeading p (u ++ v) = isLeading p u := by
  intro p
  induction p with
  | nil => intro u v _; rfl
  | cons c cs ih =>
    intro u v h
    cases u with
    | nil => simp at h
    | cons d ds =>
      simp only [List.cons_append, isLeading]
      by_cases hcd : c = d
      · simp only [hcd, if_pos]
        exact ih ds v (by simpa using h)
      · simp [hcd]

/-- A line without a colon does not match `LABEL_PATTERN`. -/
theorem splitFirstColon_eq_none :
    ∀ l : List Char, (':' : Char) ∉ l → splitFirstColon l = none := by
  intro l
  induction l with
  | nil => intro _; rfl
  | cons c rest ih =>
    intro h
    have hc : ¬ c = ':' := by
      intro hcc
      exact h (by rw [hcc]; exact List.mem_cons_self _ _)
    have hr : (':' : Char) ∉ rest := fun hm => h (List.mem_cons_of_mem _ hm)
    simp [splitFirstColon, hc, ih hr]

/-! ### Lemmas about the `LABEL_PATTERN` match -/

theorem ws_ne_colon (c : Char) (h : isPySpace c = true) : ¬ c = ':' := by
  intro hc
  subst hc
  exact absurd h (by decide)

theorem dropWhile_self {α : Type} (p : α → Bool) :
    ∀ l : List α, (l.dropWhile p).dropWhile p = l.dropWhile p := by
  intro l
  induction l with
  | nil => rfl
  | cons c cs ih =>
    by_cases h : p c
    · simp [List.dropWhile_cons, h, ih]
    · simp [List.dropWhile_cons, h]

theorem pyStripL_dropWhile (l : List Char) :
    pyStripL (l.dropWhile isPySpace) = pyStripL l := by
  unfold pyStripL
  rw [dropWhile_self]

theorem dropWhile_append_all {α : Type} (p : α → Bool) :
    ∀ (a y : List α), (∀ c ∈ a, p c = true) →
      (a ++ y).dropWhile p = y.dropWhile p := by
  intro a
  induction a with
  | nil => intro y _; rfl
  | cons c cs ih =>
    intro y h
    rw [List.cons_append, List.dropWhile_cons,
      if_pos (h c (List.mem_cons_self _ _)),
      ih y (fun d hd => h d (List.mem_cons_of_mem _ hd))]

theorem dropWhile_append_left {α : Type} (p : α → Bool) :
    ∀ (x w : List α), x.dropWhile p ≠ [] →
      (x ++ w).dropWhile p = x.dropWhile p ++ w := by
  intro x
  induction x with
  | nil => intro w h; exact absurd rfl h
  | cons c cs ih =>
    intro w h
    by_cases hc : p c
    · rw [List.dropWhile_cons, if_pos hc] at h
      rw [List.cons_append, List.dropWhile_cons, if_pos hc,
        List.dropWhile_cons, if_pos hc, ih w h]
    · rw [List.cons_append, List.dropWhile_cons, if_neg hc,
        List.dropWhile_cons, if_neg hc, List.cons_append]

theorem pyStripL_append_ws (x w : List Char)
    (hw : ∀ c ∈ w, isPySpace c = true) :
    pyStripL (x ++ w) = pyStripL x := by
  by_cases hx : x.dropWhile isPySpace = []
  · have hall : ∀ c ∈ x ++ w, isPySpace c = true := by
      intro c hc
      rcases List.mem_append.mp hc with h1 | h1
      · exact List.dropWhile_eq_nil_iff.mp hx c h1
      · exact hw c h1
    unfold pyStripL
    rw [hx, List.dropWhile_eq_nil_iff.mpr hall]
  · unfold pyStripL
    rw [dropWhile_append_left isPySpace x w hx, List.reverse_append,
      dropWhile_append_all isPySpace w.reverse _
        (fun c hc => hw c (List.mem_reverse.mp hc))]

theorem splitFirstColon_mem :
    ∀ l pre post, splitFirstColon l = some (pre, post) →
      (':' : Char) ∈ l := by
  intro l
  induction l with
  | nil => intro pre post h; simp [splitFirstColon] at h
  | cons c rest ih =>
    intro pre post h
    by_cases hc : c = ':'
    · rw [hc]; exact List.mem_cons_self _ _
    · rw [splitFirstColon, if_neg hc] at h
      rcases hrec : splitFirstColon rest with _ | ⟨p2, q2⟩
      · rw [hrec] at h; simp at h
      · exact List.mem_cons_of_mem _ (ih p2 q2 hrec)

theorem splitFirstColon_ws_prefix :
    ∀ w t, (∀ c ∈ w, isPySpace c = true) →
      splitFirstColon (w ++ ':' :: t) = some (w, t) := by
  intro w
  induction w with
  | nil => intro t _; simp [splitFirstColon]
  | cons c cs ih =>
    intro t hw
    have hc : ¬ c = ':' := ws_ne_colon c (hw c (List.mem_cons_self _ _))
    rw [List.cons_append, splitFirstColon, if_neg hc,
      ih t (fun d hd => hw d (List.mem_cons_of_mem _ hd))]

theorem headColonTail_colon (t : List Char) :
    headColonTail (':' :: t) = some t := by
  simp [headColonTail]

theorem headColonTail_ne (c : Char) (r : List Char) (h : ¬ c = ':') :
    headColonTail (c :: r) = none := by
  simp [headColonTail, h]

theorem lpTail_no_newline (rest : List Char)
    (h : ('\n' : Char) ∉ rest) :
    lpTail rest = some (rest.dropWhile isPySpace) := by
  have h1 : ∀ c ∈ rest.dropWhile isPySpace, (!(c == '\n')) = true := by
    intro c hc
    have hcr : c ∈ rest := (List.dropWhile_sublist _).subset hc
    have hcn : ¬ c = '\n' := fun he => h (he ▸ hcr)
    simp [hcn]
  simp only [lpTail]
  rw [List.dropWhile_eq_nil_iff.mpr h1, List.takeWhile_eq_self_iff.mpr h1]

/-- A line without a colon never matches `LABEL_PATTERN`. -/
theorem lpScan_none_of_no_colon :
    ∀ l acc, (':' : Char) ∉ l → lpScan acc l = none := by
  intro l
  induction l with
  | nil => intro acc _; rfl
  | cons ch rest ih =>
    intro acc h
    have hhc : headColonTail ((ch :: rest).dropWhile isPySpace) = none := by
      rcases hdw : (ch :: rest).dropWhile isPySpace with _ | ⟨c0, r0⟩
      · rfl
      · have hc0 : c0 ∈ ch :: rest :=
          (List.dropWhile_sublist _).subset
            (by rw [hdw]; exact List.mem_cons_self _ _)
        exact headColonTail_ne c0 r0 (fun he => h (he ▸ hc0))
    rw [lpScan]
    simp only [hhc]
    by_cases hnl : ch = '\n'
    · rw [if_pos hnl]
    · rw [if_neg hnl]
      exact ih _ (fun hm => h (List.mem_cons_of_mem _ hm))

/-- On newline-free text `LABEL_PATTERN` matches exactly when the text
contains a colon, splitting at the first one: group 1 strips to the text
before the first colon stripped, and group 2 strips to the text after it
stripped (the groups differ from the plain split only by whitespace that
the source's `strip()` calls discard). -/
theorem lpScan_single_line :
    ∀ (l acc pre post : List Char), ('\n' : Char) ∉ l →
      splitFirstColon l = some (pre, post) →
      ∃ g1 g2, lpScan acc l = some (g1, g2)
        ∧ pyStripL g1 = pyStripL (acc.reverse ++ pre)
        ∧ pyStripL g2 = pyStripL post := by
  intro l
  induction l with
  | nil =>
    intro acc pre post _ hsp
    simp [splitFirstColon] at hsp
  | cons ch rest ih =>
    intro acc pre post hnl hsp
    have hrest_nl : ('\n' : Char) ∉ rest :=
      fun hm => hnl (List.mem_cons_of_mem _ hm)
    have hch_nl : ¬ ch = '\n' :=
      fun he => hnl (he ▸ List.mem_cons_self _ _)
    by_cases hc : ch = ':'
    · subst hc
      rw [splitFirstColon, if_pos rfl] at hsp
      simp only [Option.some.injEq, Prod.mk.injEq] at hsp
      obtain ⟨hp1, hp2⟩ := hsp
      subst hp1
      subst hp2
      have hdw : ((':' : Char) :: rest).dropWhile isPySpace = ':' :: rest := by
        rw [List.dropWhile_cons, if_neg (by decide)]
      rw [lpScan]
      simp only [hdw, headColonTail_colon, lpTail_no_newline rest hrest_nl]
      refine ⟨acc.reverse, rest.dropWhile isPySpace, rfl, ?_,
        pyStripL_dropWhile rest⟩
      rw [List.append_nil]
    · rw [splitFirstColon, if_neg hc] at hsp
      rcases hrec : splitFirstColon rest with _ | ⟨pre2, post2⟩
      · rw [hrec] at hsp; simp at hsp
      · rw [hrec] at hsp
        simp only [Option.some.injEq, Prod.mk.injEq] at hsp
        obtain ⟨hp1, hp2⟩ := hsp
        subst hp1
        subst hp2
        rcases hdw : (ch :: rest).dropWhile isPySpace with _ | ⟨c0, r0⟩
        · exfalso
          have hall := List.dropWhile_eq_nil_iff.mp hdw
          have hcolon := splitFirstColon_mem rest pre2 post2 hrec
          exact absurd (hall ':' (List.mem_cons_of_mem _ hcolon)) (by decide)
        · by_cases hc0 : c0 = ':'
          · subst hc0
            have hchws : isPySpace ch = true := by
              by_contra hws
              rw [List.dropWhile_cons, if_neg hws] at hdw
              injection hdw with h1 _
              exact hc h1
            rw [List.dropWhile_cons, if_pos hchws] at hdw
            have hsplit_rest : splitFirstColon rest
                = some (rest.takeWhile isPySpace, r0) := by
              conv_lhs =>
                rw [← List.takeWhile_append_dropWhile isPySpace rest, hdw]
              exact splitFirstColon_ws_prefix _ _
                (fun d hd => List.mem_takeWhile_imp hd)
            rw [hrec] at hsplit_rest
            simp only [Option.some.injEq, Prod.mk.injEq] at hsplit_rest
            obtain ⟨hq1, hq2⟩ := hsplit_rest
            have hr0nl : ('\n' : Char) ∉ r0 := by
              intro hm
              apply hrest_nl
              have hmem : ('\n' : Char) ∈ rest.dropWhile isPySpace := by
                rw [hdw]
                exact List.mem_cons_of_mem _ hm
              exact (List.dropWhile_sublist isPySpace).subset hmem
            rw [lpScan]
            simp only [List.dropWhile_cons, if_pos hchws, hdw,
              headColonTail_colon, lpTail_no_newline r0 hr0nl]
            refine ⟨acc.reverse, r0.dropWhile isPySpace, rfl, ?_, ?_⟩
            · have hwsall : ∀ d ∈ ch :: pre2, isPySpace d = true := by
                intro d hd
                rcases List.mem_cons.mp hd with h1 | h1
                · rw [h1]; exact hchws
                · rw [hq1] at h1
                  exact List.mem_takeWhile_imp h1
              exact (pyStripL_append_ws acc.reverse (ch :: pre2) hwsall).symm
            · rw [hq2]
              exact pyStripL_dropWhile r0
          · have hhc : headColonTail ((ch :: rest).dropWhile isPySpace)
                = none := by
              rw [hdw]
              exact headColonTail_ne c0 r0 hc0
            obtain ⟨g1, g2, hseq, hg1, hg2⟩ :=
              ih (ch :: acc) pre2 post2 hrest_nl hrec
            refine ⟨g1, g2, ?_, ?_, hg2⟩
            · rw [lpScan]
              simp only [hhc]
              rw [if_neg hch_nl]
              exact hseq
            · rw [List.reverse_cons, List.append_assoc,
                List.singleton_append] at hg1
              exact hg1

/-- Every produced row's content is the stripped text of some expected
line: rows never originate from actual-only (`'+'`) lines. -/
theorem result_expected_mem (e : List String) (a : String) (r : CompResult)
    (hr : r ∈ comparisonResults e a) :
    ∃ l, l ∈ e ∧ r.expected = pyStrip l := by
  obtain ⟨p, hp, hc⟩ := List.mem_filterMap.mp hr
  rcases classify_mem_cases a p r hc with ⟨h1, _, hre⟩ | ⟨h1, _, hre⟩ <;>
  · refine ⟨p.2, ?_, by rw [hre]⟩
    have hmem : p.2 ∈ (diffTags e (actualLines a)).filterMap keepA :=
      List.mem_filterMap.mpr ⟨p, hp, by simp [keepA, h1]⟩
    rwa [diffTags_keepA] at hmem

/-- The report opens with the all-clear banner line exactly when the
`has_mismatches` flag is off. -/
theorem compare_texts_banner (e : List String) (a : String) :
    bannerIsPass (compare_texts e a) = !(has_mismatches e a) := by
  unfold compare_texts bannerIsPass
  by_cases h : has_mismatches e a = true
  · rw [if_pos h, h]
    rw [String.data_append, String.data_append, List.append_assoc]
    rw [isLeading_append_long _ _ _ (by decide)]
    decide
  · rw [if_neg h]
    have hb : has_mismatches e a = false := by
      revert h
      cases has_mismatches e a <;> simp
    rw [hb]
    unfold passBanner
    rw [String.data_append, String.data_append, String.data_append,
      List.append_assoc, List.append_assoc]
    exact isLeading_self_append _ _

/-! ### The claims -/

/-- C1, counterexample.  The claim states that the secondary search for a
`DELETE`-classified line is performed on NormalizedKeys (lowercased,
punctuation stripped, whitespace collapsed), so that on expected line
`"[TITLE_H1] Hello, World"` and actual text `"[PARAGRAPH] hello world"`
the normalized key `"hello world"` would be found and the diagnosis would
be the structural one.  The source searches the raw stripped content
instead: the run produces the content-error diagnosis even though the
normalized key is present in the normalized label-stripped actual text. -/
theorem c1_counterexample :
    pyInStr
        (NormalizedKey (pyStrip (stripLeadingLabel ("[TITLE_H1] Hello, World"))))
        (NormalizedKey (removeLabelTokens ("[PARAGRAPH] hello world"))) = true
      ∧ comparisonResults ["[TITLE_H1] Hello, World"] ("[PARAGRAPH] hello world")
        = [⟨"❌ MISMATCH", "[TITLE_H1] Hello, World", contentMsg⟩]
      ∧ contentMsg ≠ structuralMsg := by
  refine ⟨?_, ?_, ?_⟩
  · decide
  · decide
  · decide

/-- C1, amended.  For every expected line classified as `DELETE`
(a mismatch row), the classifier takes the row content with the leading
bracketed label removed, removes every bracketed label token from the
full actual text, strips both, and performs an exact (case- and
punctuation-sensitive) substring search; the structural diagnosis is
produced exactly when the label-stripped content is non-empty and found,
and otherwise the content diagnosis. -/
theorem c1_classifier_search_exact (e : List String) (a : String)
    (r : CompResult) (hr : r ∈ comparisonResults e a)
    (hs : r.status = "❌ MISMATCH") :
    (r.detail = structuralMsg ∨ r.detail = contentMsg) ∧
    (r.detail = structuralMsg ↔
      (pyStrip (stripLeadingLabel r.expected) ≠ "" ∧
        pyInStr (pyStrip (stripLeadingLabel r.expected))
          (pyStrip (removeLabelTokens a)) = true)) := by
  obtain ⟨p, hp, hc⟩ := List.mem_filterMap.mp hr
  rcases classify_mem_cases a p r hc with ⟨h1, hsc, hre⟩ | ⟨h1, hsc, hre⟩
  · rw [hre] at hs
    simp at hs
  · subst hre
    dsimp only
    unfold deleteDetail
    by_cases hcond : (pyStrip (stripLeadingLabel (pyStrip p.2)) ≠ ""
        ∧ pyInStr (pyStrip (stripLeadingLabel (pyStrip p.2)))
            (pyStrip (removeLabelTokens a)) = true)
    · rw [if_pos hcond]
      refine ⟨Or.inl rfl, ?_⟩
      constructor
      · intro _
        exact hcond
      · intro _
        rfl
    · rw [if_neg hcond]
      refine ⟨Or.inr rfl, ?_⟩
      constructor
      · intro hcm
        exact absurd hcm (by decide)
      · intro hcond2
        exact absurd hcond2 hcond

/-- C1, witness for the amended theorem: a concrete mismatch row whose
label-stripped content is found verbatim elsewhere, diagnosed as the
structural error. -/
theorem c1_classifier_search_exact_witness :
    ((⟨"❌ MISMATCH", "[A] x", structuralMsg⟩ : CompResult).detail
        = structuralMsg
      ∨ (⟨"❌ MISMATCH", "[A] x", structuralMsg⟩ : CompResult).detail
        = contentMsg) ∧
    ((⟨"❌ MISMATCH", "[A] x", structuralMsg⟩ : CompResult).detail
        = structuralMsg ↔
      (pyStrip (stripLeadingLabel
          (⟨"❌ MISMATCH", "[A] x", structuralMsg⟩ : CompResult).expected)
          ≠ "" ∧
        pyInStr
          (pyStrip (stripLeadingLabel
            (⟨"❌ MISMATCH", "[A] x", structuralMsg⟩ : CompResult).expected))
          (pyStrip (removeLabelTokens ("[B] x"))) = true)) :=
  c1_classifier_search_exact ["[A] x"] ("[B] x") _ (by decide) (by decide)

/-- C2, counterexample.  The claim states the produced label is always
non-empty, defaulting to `PARAGRAPH` when the text before the first colon
is absent or canonicalizes to the empty string.  On the line
`": hello"` the pattern matches with an empty pre-colon group and the
source emits the empty label `[]`, not `PARAGRAPH`. -/
theorem c2_counterexample :
    docx_line (": hello") = some ("[] hello")
      ∧ ("[] hello" : String) ≠ ("[PARAGRAPH] hello" : String) := by
  constructor
  · decide
  · decide

/-- C2, amended.  The produced label is not always non-empty.  The
`PARAGRAPH` default applies exactly when `LABEL_PATTERN` fails to match
the stripped line — in particular when it has no colon, and also when the
regex's newline constraints block every colon; when the pattern matches,
the label is the canonicalized group 1, which may be empty (serialized as
`[]`).  On newline-free lines the pattern splits at the first colon. -/
theorem c2_label_default_rule (text : String) :
    (pyStrip text ≠ "" → lpScan [] (pyStrip text).data = none →
      docx_line text = some ("[PARAGRAPH] " ++ pyStrip text)) ∧
    (∀ pre post, lpScan [] (pyStrip text).data = some (pre, post) →
      docx_line text
        = some ("[" ++ canon_label ⟨pre⟩ ++ "] " ++ pyStrip ⟨post⟩)) ∧
    (pyStrip text ≠ "" → ('\n' : Char) ∉ (pyStrip text).data →
      ∀ pre post, splitFirstColon (pyStrip text).data = some (pre, post) →
      docx_line text
        = some ("[" ++ canon_label ⟨pre⟩ ++ "] " ++ pyStrip ⟨post⟩)) := by
  refine ⟨?_, ?_, ?_⟩
  · intro h hnone
    unfold docx_line
    rw [if_neg h, hnone]
  · intro pre post hscan
    have h : pyStrip text ≠ "" := by
      intro h0
      rw [h0] at hscan
      simp [lpScan] at hscan
    unfold docx_line
    rw [if_neg h, hscan]
  · intro h hnl pre post hsp
    obtain ⟨g1, g2, hseq, hg1, hg2⟩ :=
      lpScan_single_line (pyStrip text).data [] pre post hnl hsp
    rw [List.reverse_nil, List.nil_append] at hg1
    have hcanon : canon_label ⟨g1⟩ = canon_label ⟨pre⟩ := by
      unfold canon_label
      rw [show (String.mk g1).data = g1 from rfl,
        show (String.mk pre).data = pre from rfl, hg1]
    have hpost : pyStrip ⟨g2⟩ = pyStrip ⟨post⟩ := by
      unfold pyStrip
      rw [show (String.mk g2).data = g2 from rfl,
        show (String.mk post).data = post from rfl, hg2]
    unfold docx_line
    rw [if_neg h, hseq]
    show some ("[" ++ canon_label ⟨g1⟩ ++ "] " ++ pyStrip ⟨g2⟩)
      = some ("[" ++ canon_label ⟨pre⟩ ++ "] " ++ pyStrip ⟨post⟩)
    rw [hcanon, hpost]

/-- C2, witness for the amended theorem: a colon-free line gets the
`PARAGRAPH` default; a line with an empty pre-colon group gets the empty
label; and on the newline case `"a : b\nc"` the pattern fails, so the
line falls back to `PARAGRAPH` even though it contains a colon. -/
theorem c2_label_default_rule_witness :
    docx_line ("Hello World")
        = some ("[PARAGRAPH] " ++ pyStrip ("Hello World"))
      ∧ docx_line (": hello")
        = some ("[" ++ canon_label ⟨([] : List Char)⟩ ++ "] "
            ++ pyStrip ⟨("hello" : String).data⟩)
      ∧ docx_line ("a : b\nc")
        = some ("[PARAGRAPH] " ++ pyStrip ("a : b\nc")) :=
  ⟨(c2_label_default_rule ("Hello World")).1 (by decide) (by decide),
    (c2_label_default_rule (": hello")).2.1 ([] : List Char)
      ("hello" : String).data (by decide),
    (c2_label_default_rule ("a : b\nc")).1 (by decide) (by decide)⟩

set_option maxRecDepth 4000 in
/-- C3, counterexample.  The claim states the closing note discloses the
number of unmatched actual lines.  Two runs whose unmatched-actual-line
counts differ (one versus two) produce byte-identical reports, so no part
of the report, closing note included, discloses that count. -/
theorem c3_counterexample :
    compare_texts ["[A] x"] ("[A] x\n[B] e1")
        = compare_texts ["[A] x"] ("[A] x\n[B] e1\n[B] e2")
      ∧ (diffTags ["[A] x"] (actualLines ("[A] x\n[B] e1"))).countP
          (fun p => p.1 == '+') = 1
      ∧ (diffTags ["[A] x"] (actualLines ("[A] x\n[B] e1\n[B] e2"))).countP
          (fun p => p.1 == '+') = 2 := by
  refine ⟨?_, by decide, by decide⟩
  decide

/-- C3, amended.  `INSERT` operations never produce a per-line report
row — every row's content comes from an expected line — and the report
always ends with the same fixed closing block, which states that extra
website content is not listed but contains no count. -/
theorem c3_extra_lines_aggregate (e : List String) (a : String) :
    (∀ r ∈ comparisonResults e a, ∃ l, l ∈ e ∧ r.expected = pyStrip l) ∧
    (∃ p, compare_texts e a = p ++ extraFlagBlock) :=
  ⟨fun r hr => result_expected_mem e a r hr, ⟨_, rfl⟩⟩

/-- C3, witness for the amended theorem at a concrete run with one
matched expected line and one extra actual line. -/
theorem c3_extra_lines_aggregate_witness :
    (∀ r ∈ comparisonResults ["[A] x"] ("[A] x\n[B] e1"),
      ∃ l, l ∈ (["[A] x"] : List String) ∧ r.expected = pyStrip l) ∧
    (∃ p, compare_texts ["[A] x"] ("[A] x\n[B] e1") = p ++ extraFlagBlock) :=
  c3_extra_lines_aggregate ["[A] x"] ("[A] x\n[B] e1")

/-- C4.  Alignment completeness and classification totality: the lines of
the `MATCH`/`DELETE` operations are exactly the expected sequence (in
order, once each), the lines of the `MATCH`/`INSERT` operations are
exactly the actual sequence, and — provided every expected line is
non-blank, which holds for every serialized `[LABEL] content` tagged
line — the number of produced rows equals the number of expected lines. -/
theorem c4_alignment_complete (e : List String) (a : String)
    (h : ∀ l ∈ e, pyStrip l ≠ "") :
    (diffTags e (actualLines a)).filterMap keepA = e ∧
    (diffTags e (actualLines a)).filterMap keepB = actualLines a ∧
    (comparisonResults e a).length = e.length := by
  refine ⟨diffTags_keepA _ _, diffTags_keepB _ _, ?_⟩
  unfold comparisonResults
  rw [filterMap_classify_len]
  · rw [diffTags_keepA]
  · intro p hp hk
    have hmem : p.2 ∈ (diffTags e (actualLines a)).filterMap keepA := by
      refine List.mem_filterMap.mpr ⟨p, hp, ?_⟩
      unfold keepA at hk ⊢
      by_cases h1 : p.1 = ' '
      · simp [h1]
      · by_cases h2 : p.1 = '-'
        · simp [h1, h2]
        · simp [h1, h2] at hk
    rw [diffTags_keepA] at hmem
    exact h _ hmem

/-- C4, witness at a concrete run. -/
theorem c4_alignment_complete_witness :
    (∀ l ∈ (["[PARAGRAPH] Welcome"] : List String), pyStrip l ≠ "") ∧
    ((diffTags ["[PARAGRAPH] Welcome"]
        (actualLines ("[PARAGRAPH] Welcome\n[OTHER] extra"))).filterMap keepA
        = ["[PARAGRAPH] Welcome"] ∧
      (diffTags ["[PARAGRAPH] Welcome"]
        (actualLines ("[PARAGRAPH] Welcome\n[OTHER] extra"))).filterMap keepB
        = actualLines ("[PARAGRAPH] Welcome\n[OTHER] extra") ∧
      (comparisonResults ["[PARAGRAPH] Welcome"]
        ("[PARAGRAPH] Welcome\n[OTHER] extra")).length
        = (["[PARAGRAPH] Welcome"] : List String).length) :=
  ⟨by decide,
    c4_alignment_complete ["[PARAGRAPH] Welcome"]
      ("[PARAGRAPH] Welcome\n[OTHER] extra") (by decide)⟩

/-- C5.  A matching row is produced for an expected line only when that
very line also occurs, character for character, among the actual lines:
the alignment's equality predicate is exact serialized-line equality with
no normalization. -/
theorem c5_match_requires_identical (e : List String) (a : String)
    (r : CompResult) (hr : r ∈ comparisonResults e a)
    (hs : r.status = "✅ MATCHING") :
    ∃ l, l ∈ e ∧ l ∈ actualLines a ∧ r.expected = pyStrip l := by
  obtain ⟨p, hp, hc⟩ := List.mem_filterMap.mp hr
  rcases classify_mem_cases a p r hc with ⟨h1, hsc, hre⟩ | ⟨h1, hsc, hre⟩
  · obtain ⟨t, s⟩ := p
    dsimp only at h1 hre
    subst h1
    obtain ⟨ha, hb⟩ := diffTags_space_mem e (actualLines a) s hp
    exact ⟨s, ha, hb, by rw [hre]⟩
  · rw [hre] at hs
    simp at hs

/-- C5, witness at a concrete run with one exactly matching line. -/
theorem c5_match_requires_identical_witness :
    ∃ l, l ∈ (["[A] x"] : List String) ∧ l ∈ actualLines ("[A] x")
      ∧ (⟨"✅ MATCHING", "[A] x", matchMsg⟩ : CompResult).expected
        = pyStrip l :=
  c5_match_requires_identical ["[A] x"] ("[A] x") _ (by decide) (by decide)

/-- C6.  The embedded alignment-plus-classification pipeline is a pure
total function of the expected sequence and the actual text (it reads no
ambient state), so identical inputs yield byte-identical reports. -/
theorem c6_deterministic (e1 e2 : List String) (a1 a2 : String)
    (he : e1 = e2) (ha : a1 = a2) :
    compare_texts e1 a1 = compare_texts e2 a2 := by
  rw [he, ha]

/-- C6, witness at a concrete run. -/
theorem c6_deterministic_witness :
    compare_texts ["[A] x"] ("[B] y") = compare_texts ["[A] x"] ("[B] y") :=
  c6_deterministic ["[A] x"] ["[A] x"] ("[B] y") ("[B] y") rfl rfl

/-- C7.  Label canonicalization is trim, uppercase, space-to-underscore,
parenthesis removal; a non-blank line without a colon becomes content
with the default label `PARAGRAPH`; blank (post-strip) lines produce no
tagged line. -/
theorem c7_label_canonicalization :
    canon_label ("title (h1)") = "TITLE_H1" ∧
    canon_label ("Menu Item") = "MENU_ITEM" ∧
    (∀ t : String, pyStrip t ≠ "" → (':' : Char) ∉ (pyStrip t).data →
      docx_line t = some ("[PARAGRAPH] " ++ pyStrip t)) ∧
    (∀ t : String, pyStrip t = "" → docx_line t = none) := by
  refine ⟨by decide, by decide, ?_, ?_⟩
  · intro t h hc
    unfold docx_line
    rw [if_neg h, lpScan_none_of_no_colon _ _ hc]
  · intro t h
    unfold docx_line
    rw [if_pos h]

/-- C7, witness: the universally quantified parts applied to a colon-free
line and to a blank line. -/
theorem c7_label_canonicalization_witness :
    docx_line ("Menu") = some ("[PARAGRAPH] " ++ pyStrip ("Menu"))
      ∧ docx_line ("   ") = none :=
  ⟨c7_label_canonicalization.2.2.1 ("Menu") (by decide) (by decide),
    c7_label_canonicalization.2.2.2 ("   ") (by decide)⟩

/-- C8.  The report opens with the all-clear banner exactly when every
produced row is a matching row; with an empty expected sequence no rows
are produced and the banner is the all-clear one for every actual text. -/
theorem c8_banner_pass_iff (e : List String) (a : String) :
    (bannerIsPass (compare_texts e a) = true ↔
      ∀ r ∈ comparisonResults e a, r.status = "✅ MATCHING") ∧
    comparisonResults ([] : List String) a = [] ∧
    bannerIsPass (compare_texts [] a) = true := by
  refine ⟨?_, ?_, ?_⟩
  · rw [compare_texts_banner]
    constructor
    · intro h r hr
      rcases result_status_cases e a r hr with h1 | h1
      · exact h1
      · exfalso
        have hm : has_mismatches e a = true := by
          unfold has_mismatches
          refine (mismatch_flag_iff a _).mpr ⟨r, ?_, h1⟩
          unfold comparisonResults at hr
          exact hr
        rw [hm] at h
        exact absurd h (by decide)
    · intro h
      cases hm : has_mismatches e a
      · rfl
      · exfalso
        unfold has_mismatches at hm
        obtain ⟨r, hr, hst⟩ := (mismatch_flag_iff a _).mp hm
        have h2 : r.status = "✅ MATCHING" := by
          refine h r ?_
          unfold comparisonResults
          exact hr
        rw [h2] at hst
        exact absurd hst (by decide)
  · unfold comparisonResults diffTags
    rw [diffTagsF_nil_left]
    exact filterMap_map_none _ _ (classify_ins a) _
  · rw [compare_texts_banner]
    have hm : has_mismatches [] a = false := by
      unfold has_mismatches diffTags
      rw [diffTagsF_nil_left]
      refine List.any_eq_false.mpr ?_
      intro x hx
      obtain ⟨s, _, hsx⟩ := List.mem_map.mp hx
      rw [← hsx]
      simp
    rw [hm]
    rfl

/-- C8, witness at a concrete run (the extra actual line exercises the
empty-expected parts). -/
theorem c8_banner_pass_iff_witness :
    (bannerIsPass (compare_texts ["[A] x"] ("[A] x")) = true ↔
      ∀ r ∈ comparisonResults ["[A] x"] ("[A] x"),
        r.status = "✅ MATCHING") ∧
    comparisonResults ([] : List String) ("[A] x") = [] ∧
    bannerIsPass (compare_texts [] ("[A] x")) = true :=
  c8_banner_pass_iff ["[A] x"] ("[A] x")

/-- C9.  Every acquisition failure — missing reference document, fetch
error, labeling-service error, reference-document read error — makes the
pipeline return no artifact and exactly the failing stage's error
message, before any comparison takes place. -/
theorem c9_error_short_circuit
    (fetched : Except String String)
    (labeler : String → Except String String)
    (docxReader : String → Except String (List String)) :
    (run_structural_validation none fetched labeler docxReader
      = (none, "ERROR: Please upload a DOCX file for comparison.")) ∧
    (∀ f msg, fetched = Except.error msg →
      run_structural_validation (some f) fetched labeler docxReader
        = (none, msg)) ∧
    (∀ f raw msg, fetched = Except.ok raw → labeler raw = Except.error msg →
      run_structural_validation (some f) fetched labeler docxReader
        = (none, msg)) ∧
    (∀ f raw lab msg, fetched = Except.ok raw → labeler raw = Except.ok lab →
      docxReader f = Except.error msg →
      run_structural_validation (some f) fetched labeler docxReader
        = (none, msg)) := by
  refine ⟨rfl, ?_, ?_, ?_⟩
  · intro f msg h
    simp [run_structural_validation, h]
  · intro f raw msg h1 h2
    simp [run_structural_validation, h1, h2]
  · intro f raw lab msg h1 h2 h3
    simp [run_structural_validation, h1, h2, h3]

/-- C9, witness: a concrete fetch failure short-circuits the run. -/
theorem c9_error_short_circuit_witness :
    run_structural_validation (some ("ref.docx"))
        (Except.error ("ERROR: Could not fetch URL. Details: timeout"))
        (fun t => Except.ok t) (fun _ => Except.ok [])
      = (none, "ERROR: Could not fetch URL. Details: timeout") :=
  (c9_error_short_circuit
    (Except.error ("ERROR: Could not fetch URL. Details: timeout"))
    (fun t => Except.ok t) (fun _ => Except.ok [])).2.1
    ("ref.docx") ("ERROR: Could not fetch URL. Details: timeout") rfl

/-- C10.  A mismatch row whose content is empty after removing the
leading bracketed label always carries the content-error diagnosis: the
secondary found-elsewhere search is guarded by the non-emptiness test, so
such a line can never be diagnosed as a structural mismatch. -/
theorem c10_empty_content_mismatch (e : List String) (a : String)
    (r : CompResult) (hr : r ∈ comparisonResults e a)
    (hs : r.status = "❌ MISMATCH")
    (hempty : pyStrip (stripLeadingLabel r.expected) = "") :
    r.detail = contentMsg := by
  obtain ⟨p, hp, hc⟩ := List.mem_filterMap.mp hr
  rcases classify_mem_cases a p r hc with ⟨h1, hsc, hre⟩ | ⟨h1, hsc, hre⟩
  · rw [hre] at hs
    simp at hs
  · subst hre
    dsimp only at hempty ⊢
    unfold deleteDetail
    rw [if_neg (fun hcond => hcond.1 hempty)]

/-- C10, witness: a deleted expected line that is a bare label. -/
theorem c10_empty_content_mismatch_witness :
    (⟨"❌ MISMATCH", "[X]", contentMsg⟩ : CompResult).detail = contentMsg :=
  c10_empty_content_mismatch ["[X]"] ("") _ (by decide) (by decide)
    (by decide)

end WebCompare
